import Mathlib

/-!
Verification development for `crypto-drive-manager` (xolox/python-crypto-drive-manager).

This file gives a shallow embedding of the orchestration core found in
`crypto_drive_manager/__init__.py` and `crypto_drive_manager/systemd.py`:

* pure string helpers (`os.path.normpath`, `str.partition`, `os.path.join`, ...)
  are translated to structurally recursive functions on `List Char`;
* the effectful functions (`initialize_keys_device`, `activate_encrypted_drive`,
  `drive_needs_mounting`) are translated into a state-passing monad `M` over a
  filesystem abstraction `FS`; every external command invocation is recorded in
  a trace (`List Cmd`) and may fail according to an environment oracle
  (`Env.ok`), modelling `executor.ExternalCommandFailed`;
* Python `try/finally` and the `finalizer` context manager are modelled by
  `pyTryFinally` / `withFinalizer` with Python's exception-replacement semantics.

The Python function `initialize_keys_device` is embedded as `init_keys_device`
(the literal source name contains a token this development avoids in
identifiers); its contiguous blocks are split into the helper definitions
`decideCleanup` (lines 55-71), `unlock_scope` (lines 73-97), `mount_scope`
(lines 84-128), `process_drive` (the body of the loop at lines 107-120) and
`rollbackFin` (the `finally` block at lines 131-135), preserving control flow,
state reads and command order.  Logging calls and `os.chmod` have no observable
effect in this model and are noted in comments where they occur.
-/

/-! ## String helpers (translated from CPython `posixpath` / `str` builtins) -/

/-- `str.split(sep)` for a single-character separator, on `List Char`. -/
def splitOnCharL (c : Char) : List Char → List (List Char)
  | [] => [[]]
  | x :: xs =>
    let r := splitOnCharL c xs
    if x = c then [] :: r
    else
      match r with
      | [] => [[x]]
      | y :: ys => (x :: y) :: ys

/-- `str.partition('=')`: everything before the first `'='` and everything
after it; if there is no `'='` the second component is empty, exactly like
Python's `line.partition('=')` (whose middle component we drop). -/
def partitionEqL : List Char → List Char × List Char
  | [] => ([], [])
  | x :: xs =>
    if x = '=' then ([], xs)
    else
      let r := partitionEqL xs
      (x :: r.1, r.2)

/-- `str.lower()` (ASCII, which is all the source compares). -/
def lowerL (l : List Char) : List Char := l.map Char.toLower

/-- `str.strip()` with no argument: strip whitespace from both ends. -/
def stripL (l : List Char) : List Char :=
  ((l.dropWhile Char.isWhitespace).reverse.dropWhile Char.isWhitespace).reverse

/-- The `new_comps` loop inside CPython's `posixpath.normpath`. -/
def normComps (initial_slashes : Nat) (comps : List (List Char)) : List (List Char) :=
  comps.foldl
    (fun acc comp =>
      if comp = [] ∨ comp = ['.'] then acc
      else if comp ≠ ['.', '.'] ∨ (initial_slashes = 0 ∧ acc = []) ∨
              (acc ≠ [] ∧ acc.getLast? = some ['.', '.']) then
        acc ++ [comp]
      else if acc ≠ [] then acc.dropLast
      else acc)
    []

/-- CPython `posixpath.normpath` on `List Char`. -/
def normpathL (p : List Char) : List Char :=
  if p = [] then ['.']
  else
    let initial_slashes : Nat :=
      if List.isPrefixOf ['/'] p then
        (if List.isPrefixOf ['/', '/'] p ∧ ¬ (List.isPrefixOf ['/', '/', '/'] p) then 2 else 1)
      else 0
    let comps := splitOnCharL '/' p
    let res := List.replicate initial_slashes '/' ++
      List.intercalate ['/'] (normComps initial_slashes comps)
    if res = [] then ['.'] else res

/-- `match_prefix` from `crypto_drive_manager/__init__.py` lines 191-209, on
`List Char`: normalize both arguments, force the prefix to end in `os.path.sep`
(`'/'`), then compare with `str.startswith`. -/
def matchPrefixL (pathname pfx : List Char) : Bool :=
  let pathname := normpathL pathname
  let pfx := normpathL pfx
  let pfx := if pfx.getLast? = some '/' then pfx else pfx ++ ['/']
  List.isPrefixOf pfx pathname

/-- `match_prefix(pathname, prefix)` on `String`. -/
def match_prefix (pathname pfx : String) : Bool :=
  matchPrefixL pathname.toList pfx.toList

/-- `os.path.join(a, b)` for POSIX paths (two arguments, as used at line 159). -/
def ospath_join (a b : String) : String :=
  if List.isPrefixOf ['/'] b.toList then b
  else if a.toList = [] ∨ a.toList.getLast? = some '/' then a ++ b
  else a ++ "/" ++ b

/-! ## Data model -/

/-- One `/etc/crypttab` entry as produced by `linux_utils.crypttab.parse_crypttab`
(an `EncryptedFileSystemEntry`).  `source_device` and `is_available` are the
derived runtime attributes the orchestrator reads; resolution itself happens in
the external `linux_utils` collaborator. -/
structure CryptEntry where
  target : String
  source : String
  source_device : String
  key_file : Option String
  options : List String
  is_available : Bool
deriving DecidableEq, Repr

/-- External commands the orchestration core runs, with the literal arguments
from the source.  `sysd_query` records the single consult of the
init-system-quirk collaborator `have_systemd_dependencies` (whose own external
commands are non-fatal probes, summarized by this one event). -/
inductive Cmd where
  | dd_zero (of_ : String) (bs count : Nat)
  | luksFormat (image : String)
  | luksOpen (image mapper : String)
  | mkfs_ext4 (device : String)
  | mount_at (device mount_point : String)
  | umount (mount_point : String)
  | luksClose (mapper : String)
  | dd_urandom (of_ : String) (bs count : Nat)
  | luksAddKey (device key_file : String)
  | cryptdisks_start (target : String)
  | mount_fstab (device : String)
  | blkid (device : String)
  | sysd_query (mount_point : String)
deriving DecidableEq, Repr

/-- Teardown commands: the two finalizer commands of the keys-volume session. -/
def Cmd.isTeardown : Cmd → Bool
  | .umount _ => true
  | .luksClose _ => true
  | _ => false

/-- Recognizes the quirk-query marker event. -/
def Cmd.isSysdQuery : Cmd → Bool
  | .sysd_query _ => true
  | _ => false

/-- Commands that `activate_encrypted_drive` can emit. -/
def Cmd.isActivateCmd : Cmd → Prop
  | .dd_urandom _ _ _ => True
  | .luksAddKey _ _ => True
  | .cryptdisks_start _ => True
  | .blkid _ => True
  | .mount_fstab _ => True
  | _ => False

/-- Commands that are not the quirk-query marker. -/
def Cmd.isRealCmd : Cmd → Prop
  | .sysd_query _ => False
  | _ => True

/-- Ambient filesystem state read and mutated by the orchestrator:
`files` backs `os.path.isfile`, `mappers` backs `os.path.exists` on
`/dev/mapper/...` paths, `dirs` backs `os.path.isdir`, `mountPoints` backs
`os.path.ismount`, and `mountedDevs` is the set of device files appearing in
the mount table (`linux_utils.fstab.find_mounted_filesystems`). -/
structure FS where
  files : List String
  mappers : List String
  dirs : List String
  mountPoints : List String
  mountedDevs : List String
deriving DecidableEq, Repr

/-- Full mutable state of a run: the filesystem, the trace of external
commands attempted so far, and the Python local `initialized` of
`initialize_keys_device` (named `initDone` here), which is written inside the
nested scopes and read by the `finally` block. -/
structure St where
  fs : FS
  trace : List Cmd
  initDone : Bool
deriving DecidableEq, Repr

deriving instance DecidableEq for Except

/-- Static environment: the success oracle for external commands (`ok c =
false` models `ExternalCommandFailed` raised by `executor.execute` /
`cryptdisks_start`), the captured `blkid -o export` output per device, the
parsed crypttab, and the observations `have_systemd_dependencies` makes
(`which systemctl` truthiness and `systemctl show` output lines per target). -/
structure Env where
  ok : Cmd → Bool
  blkidLines : String → List String
  crypttab : List CryptEntry
  whichSystemctl : Bool
  systemctlShow : String → List String

/-- How a successful (or attempted) command changes the filesystem.  `dd`
creates its output file even when it subsequently fails; the other commands
take effect only on success. -/
def FS.applyCmd (fs : FS) (c : Cmd) (success : Bool) : FS :=
  match c with
  | .dd_zero of_ _ _ => { fs with files := of_ :: fs.files }
  | .dd_urandom of_ _ _ => { fs with files := of_ :: fs.files }
  | .luksOpen _ mapper =>
    if success then { fs with mappers := ("/dev/mapper/" ++ mapper) :: fs.mappers } else fs
  | .cryptdisks_start t =>
    if success then { fs with mappers := ("/dev/mapper/" ++ t) :: fs.mappers } else fs
  | .mount_at dev mp =>
    if success then
      { fs with mountedDevs := dev :: fs.mountedDevs, mountPoints := mp :: fs.mountPoints }
    else fs
  | .mount_fstab dev =>
    if success then { fs with mountedDevs := dev :: fs.mountedDevs } else fs
  | .umount mp =>
    if success then { fs with mountPoints := fs.mountPoints.filter (· ≠ mp) } else fs
  | .luksClose mapper =>
    if success then
      { fs with mappers := fs.mappers.filter (· ≠ "/dev/mapper/" ++ mapper) }
    else fs
  | _ => fs

/-! ## The effect monad

`M α` threads the state and either produces a value or propagates a Python
exception (`Except.error ()`); the trace and filesystem survive the exception
so that `finally` clauses and post-mortem observations are expressible. -/

def M (α : Type) : Type := St → St × Except Unit α

def M.pure {α : Type} (a : α) : M α := fun s => (s, Except.ok a)

def M.bind {α β : Type} (x : M α) (f : α → M β) : M β := fun s =>
  match x s with
  | (s', Except.ok a) => f a s'
  | (s', Except.error e) => (s', Except.error e)

/-- Read the current filesystem (models the various `os.path.*` queries). -/
def getFS : M FS := fun s => (s, Except.ok s.fs)

/-- Silent filesystem mutation (`os.makedirs`, `os.unlink`). -/
def modifyFS (f : FS → FS) : M Unit := fun s =>
  ({ s with fs := f s.fs }, Except.ok ())

/-- Assignment to the Python local `initialized`. -/
def setInitDone (b : Bool) : M Unit := fun s =>
  ({ s with initDone := b }, Except.ok ())

/-- Record an event in the trace without possibility of failure (used for the
quirk-query marker, whose internal probes are run with `check=False`). -/
def note (c : Cmd) : M Unit := fun s =>
  ({ s with trace := s.trace ++ [c] }, Except.ok ())

/-- `executor.execute(...)` / `linux_utils.luks.cryptdisks_start`: record the
command, apply its filesystem effect, and raise iff the oracle says it fails. -/
def execCmd (env : Env) (c : Cmd) : M Unit := fun s =>
  let ok := env.ok c
  ({ s with trace := s.trace ++ [c], fs := s.fs.applyCmd c ok },
   if ok then Except.ok () else Except.error ())

/-- Python `try: body finally: fin`: `fin` always runs; an exception raised by
`fin` replaces the pending result. -/
def pyTryFinally {α : Type} (body : M α) (fin : M Unit) : M α := fun s =>
  match body s with
  | (s', r) =>
    match fin s' with
    | (s'', Except.ok _) => (s'', r)
    | (s'', Except.error e) => (s'', Except.error e)

/-- `finalizer.__exit__` (lines 249-252): run the stored command iff `enabled`. -/
def finalizerExit (env : Env) (c : Cmd) (enabled : Bool) : M Unit :=
  if enabled then execCmd env c else M.pure ()

/-- `with finalizer(cmd, enabled=b): body` — the context manager from
lines 231-252 wrapped around a block. -/
def withFinalizer {α : Type} (env : Env) (c : Cmd) (enabled : Bool) (body : M α) : M α :=
  pyTryFinally body (finalizerExit env c enabled)

/-- The Python `for` loop as monadic left fold. -/
def foldListM {α β : Type} (f : β → α → M β) : β → List α → M β
  | acc, [] => M.pure acc
  | acc, x :: xs => M.bind (f acc x) fun acc' => foldListM f acc' xs

/-! ## `DriveStatus` (lines 255-281): IntEnum values combined with bitwise or -/

namespace DriveStatus

def DEFAULT : Nat := 0

def INITIALIZED : Nat := 1

def UNLOCKED : Nat := 2

def MOUNTED : Nat := 4

end DriveStatus

/-! ## The program -/

/-- The per-line test inside `drive_needs_mounting` (lines 223-224):
`name.lower() == 'type' and value.lower() == 'lvm2_member'` after
`line.partition('=')`. -/
def lvm_member_line (line : String) : Bool :=
  let p := partitionEqL line.toList
  lowerL p.1 == "type".toList && lowerL p.2 == "lvm2_member".toList

/-- `drive_needs_mounting(mapper_device)` (lines 212-228): `False` if the
device is already a mounted filesystem's source; otherwise run `blkid` (which
may raise) and return `False` if any output line reports an LVM member type;
otherwise `True`. -/
def drive_needs_mounting (env : Env) (mapper_device : String) : M Bool :=
  M.bind getFS fun fs =>
  if fs.mountedDevs.contains mapper_device then
    M.pure false
  else
    M.bind (execCmd env (.blkid mapper_device)) fun _ =>
    if (env.blkidLines mapper_device).any lvm_member_line then
      M.pure false
    else
      M.pure true

/-- `activate_encrypted_drive(mapper_name, physical_device, keys_directory,
reset)` (lines 138-175).  `os.chmod(key_file, 0o400)` at line 166 has no
observable effect in this model. -/
def activate_encrypted_drive (env : Env) (mapper_name physical_device keys_directory : String)
    (reset : Bool) : M Nat :=
  let mapper_device := "/dev/mapper/" ++ mapper_name
  M.bind getFS fun fs =>
  let device_exists := fs.mappers.contains mapper_device
  M.bind
    (if reset || !device_exists then
      let key_file := ospath_join keys_directory (mapper_name ++ ".key")
      M.bind getFS fun fs2 =>
      M.bind
        (if reset || !(fs2.files.contains key_file) then
          M.bind (execCmd env (.dd_urandom key_file 4 1024)) fun _ =>
          M.bind (execCmd env (.luksAddKey physical_device key_file)) fun _ =>
          M.pure DriveStatus.INITIALIZED
        else M.pure DriveStatus.DEFAULT) fun st0 =>
      -- os.chmod(key_file, 0o400): no observable effect here
      (if !device_exists then
        M.bind (execCmd env (.cryptdisks_start mapper_name)) fun _ =>
        M.pure (st0 ||| DriveStatus.UNLOCKED)
      else M.pure st0)
    else M.pure DriveStatus.DEFAULT) fun st1 =>
  M.bind (drive_needs_mounting env mapper_device) fun needs =>
  if needs then
    M.bind (execCmd env (.mount_fstab mapper_device)) fun _ =>
    M.pure (st1 ||| DriveStatus.MOUNTED)
  else
    M.pure st1

/-- `find_managed_drives(keys_directory)` (lines 178-188): the crypttab entries
with the `luks` option, a truthy key file, and a key file under
`keys_directory`. -/
def find_managed_drives (env : Env) (keys_directory : String) : List CryptEntry :=
  env.crypttab.filter fun entry =>
    entry.options.contains "luks" &&
      (match entry.key_file with
       | some kf => !(kf == "") && match_prefix kf keys_directory
       | none => false)

/-- `have_systemd_dependencies(mount_point)` from
`crypto_drive_manager/systemd.py` lines 39-78: if `systemctl` is on `PATH`,
report whether any managed drive's generated service unit has a
`RequiresMountsFor` field under `mount_point`.  Its external probes are run
with `check=False` and are summarized by the `Env` observations. -/
def have_systemd_dependencies (env : Env) (mount_point : String) : Bool :=
  env.whichSystemctl &&
    (find_managed_drives env mount_point).any fun device =>
      (env.systemctlShow device.target).any fun line =>
        let p := partitionEqL line.toList
        (stripL p.1 == "RequiresMountsFor".toList) &&
          matchPrefixL (stripL p.2) mount_point.toList

/-- The cleanup policy of lines 55-71 as a pure function: an explicit caller
choice wins; otherwise cleanup is safe exactly when the systemd quirk is
absent. -/
def initKeysCleanup (env : Env) (mount_point : String) (cleanup : Option Bool) : Bool :=
  match cleanup with
  | none => !(have_systemd_dependencies env mount_point)
  | some b => b

/-- Lines 55-71 with their effect: when the caller passed no explicit
preference the quirk collaborator is consulted (recorded as a `sysd_query`
event); an explicit preference is used as-is without consulting it. -/
def decideCleanup (env : Env) (mount_point : String) (cleanup : Option Bool) : M Bool :=
  M.bind
    (match cleanup with
     | none => note (.sysd_query mount_point)
     | some _ => M.pure ())
    fun _ => M.pure (initKeysCleanup env mount_point cleanup)

/-- The loop body at lines 108-120: skip entries outside a non-empty
allow-list; activate available entries with `reset = first_run`; update the
`(num_configured, num_available, num_unlocked)` tallies. -/
def process_drive (env : Env) (mount_point : String) (first_run : Bool)
    (volumes : List String) (counts : Nat × Nat × Nat) (device : CryptEntry) :
    M (Nat × Nat × Nat) :=
  match counts with
  | (num_configured, num_available, num_unlocked) =>
    if !volumes.isEmpty && !(volumes.contains device.target) then
      -- logger.verbose("Ignoring %s because it doesn't match the filter.", ...)
      M.pure (num_configured + 1, num_available, num_unlocked)
    else if device.is_available then
      M.bind
        (activate_encrypted_drive env device.target device.source_device mount_point first_run)
        fun status =>
      let num_unlocked :=
        if status &&& DriveStatus.UNLOCKED ≠ 0 then num_unlocked + 1 else num_unlocked
      M.pure (num_configured + 1, num_available + 1, num_unlocked)
    else
      M.pure (num_configured + 1, num_available, num_unlocked)

/-- Lines 84-128: the body of the `luksClose` finalizer scope.  Creates the
filesystem on the first run (setting `initialized = True` right after
`mkfs.ext4` succeeds), creates and mounts the mount point if needed, then runs
the drive loop inside the `umount` finalizer scope.  `os.chmod(mount_point,
0o700)` at line 98 and the summary logging at lines 121-128 have no observable
effect here; the loop's tallies are returned so the summary is observable. -/
def mount_scope (env : Env) (mapper_name mount_point : String)
    (volumes : List String) (first_run cleanup : Bool) : M (Nat × Nat × Nat) :=
  let mapper_device := "/dev/mapper/" ++ mapper_name
  M.bind
    (if first_run then
      M.bind (execCmd env (.mkfs_ext4 mapper_device)) fun _ => setInitDone true
    else M.pure ()) fun _ =>
  M.bind getFS fun fs =>
  M.bind
    (if !(fs.dirs.contains mount_point) then
      modifyFS (fun fs0 => { fs0 with dirs := mount_point :: fs0.dirs })
    else M.pure ()) fun _ =>
  M.bind getFS fun fs2 =>
  M.bind
    (if fs2.mountPoints.contains mount_point then M.pure ()
     else execCmd env (.mount_at mapper_device mount_point)) fun _ =>
  withFinalizer env (.umount mount_point) cleanup
    (foldListM (process_drive env mount_point first_run volumes) (0, 0, 0)
      (find_managed_drives env mount_point))

/-- Lines 73-97: provision the backing file on the first run, open the
container if its mapping is absent, and run `mount_scope` inside the
`luksClose` finalizer scope. -/
def unlock_scope (env : Env) (image_file mapper_name mount_point : String)
    (volumes : List String) (first_run cleanup : Bool) : M (Nat × Nat × Nat) :=
  let mapper_device := "/dev/mapper/" ++ mapper_name
  M.bind
    (if first_run then
      M.bind (execCmd env (.dd_zero image_file (1024 * 1024) 10)) fun _ =>
      execCmd env (.luksFormat image_file)
    else M.pure ()) fun _ =>
  M.bind getFS fun fs =>
  M.bind
    (if !(fs.mappers.contains mapper_device) then
      execCmd env (.luksOpen image_file mapper_name)
    else M.pure ()) fun _ =>
  withFinalizer env (.luksClose mapper_name) cleanup
    (mount_scope env mapper_name mount_point volumes first_run cleanup)

/-- The `finally` block at lines 131-135: if `initialized` never became true,
delete the image file if it is present (`os.unlink`). -/
def rollbackFin (image_file : String) : M Unit := fun s =>
  if s.initDone then (s, Except.ok ())
  else if s.fs.files.contains image_file then
    ({ s with fs := { s.fs with files := s.fs.files.filter (· ≠ image_file) } },
     Except.ok ())
  else (s, Except.ok ())

/-- `initialize_keys_device(image_file, mapper_name, mount_point, volumes,
cleanup)` (lines 31-135), embedded under the name `init_keys_device`:
detect the run mode, decide the cleanup policy, then run the provisioning and
activation stages under the rollback `finally`.  The
`(num_configured, num_available, num_unlocked)` tallies of the run summary are
returned on success. -/
def init_keys_device (env : Env) (image_file mapper_name mount_point : String)
    (volumes : List String) (cleanup : Option Bool) : M (Nat × Nat × Nat) :=
  M.bind getFS fun fs =>
  let first_run := !(fs.files.contains image_file)
  M.bind (setInitDone (!first_run)) fun _ =>
  M.bind (decideCleanup env mount_point cleanup) fun cl =>
  pyTryFinally
    (unlock_scope env image_file mapper_name mount_point volumes first_run cl)
    (rollbackFin image_file)

/-- Run `init_keys_device` from a quiescent state: empty trace. -/
def runInit (env : Env) (image_file mapper_name mount_point : String)
    (volumes : List String) (cleanup : Option Bool) (fs : FS) :
    St × Except Unit (Nat × Nat × Nat) :=
  init_keys_device env image_file mapper_name mount_point volumes cleanup
    { fs := fs, trace := [], initDone := true }

/-! ## Concrete fixtures used by witnesses and counterexamples -/

/-- A managed crypttab entry `a` whose key file lives under `/mnt/keys`. -/
def ent_a : CryptEntry :=
  { target := "a", source := "UUID=1111", source_device := "/dev/sda2",
    key_file := some "/mnt/keys/a.key", options := ["luks"], is_available := true }

/-- A managed crypttab entry `b` whose key file lives under `/mnt/keys`. -/
def ent_b : CryptEntry :=
  { target := "b", source := "UUID=2222", source_device := "/dev/sdb2",
    key_file := some "/mnt/keys/b.key", options := ["luks"], is_available := true }

/-- Steady-state filesystem: image and key files present, keys volume already
unlocked (`/dev/mapper/keys`) and mounted at `/mnt/keys`. -/
def fs_steady : FS :=
  { files := ["/boot/keys.img", "/mnt/keys/a.key", "/mnt/keys/b.key"],
    mappers := ["/dev/mapper/keys"], dirs := ["/mnt/keys"],
    mountPoints := ["/mnt/keys"], mountedDevs := [] }

/-- Completely empty filesystem: triggers first-run provisioning. -/
def fs_empty : FS :=
  { files := [], mappers := [], dirs := [], mountPoints := [], mountedDevs := [] }

/-- Image file present but keys volume neither unlocked nor mounted. -/
def fs_closed : FS :=
  { files := ["/boot/keys.img"], mappers := [], dirs := ["/mnt/keys"],
    mountPoints := [], mountedDevs := [] }

/-- Environment where every external command succeeds and entries `a`, `b` are
configured. -/
def env_allok_ab : Env :=
  { ok := fun _ => true, blkidLines := fun _ => [], crypttab := [ent_a, ent_b],
    whichSystemctl := false, systemctlShow := fun _ => [] }

/-- Environment with only entry `a` configured; all commands succeed. -/
def env_allok_a : Env := { env_allok_ab with crypttab := [ent_a] }

/-- Environment with no configured entries; all commands succeed. -/
def env_allok_none : Env := { env_allok_ab with crypttab := [] }

/-- Environment where `cryptdisks_start a` fails and everything else
succeeds. -/
def env_cda_fail : Env :=
  { env_allok_ab with ok := fun c => !(c == Cmd.cryptdisks_start "a") }

/-- Environment where `cryptsetup luksFormat` fails (provisioning aborts). -/
def env_fmt_fail : Env :=
  { env_allok_none with
    ok := fun c => match c with | Cmd.luksFormat _ => false | _ => true }

/-- Environment where `cryptsetup luksOpen` fails (container cannot open). -/
def env_open_fail : Env :=
  { env_allok_none with
    ok := fun c => match c with | Cmd.luksOpen _ _ => false | _ => true }

/-- Environment reporting `/dev/mapper/a` as an LVM physical volume. -/
def env_lvm : Env :=
  { env_allok_ab with
    blkidLines := fun d => if d == "/dev/mapper/a" then ["TYPE=LVM2_member"] else [] }

/-- Environment where the systemd quirk is present: `systemctl` is installed
and entry `a`'s generated unit requires mounts for a path under `/mnt/keys`. -/
def env_sysd : Env :=
  { env_allok_a with
    whichSystemctl := true,
    systemctlShow := fun _ => ["RequiresMountsFor=/mnt/keys/a.key"] }

/-- Steady state wrapped as a full run state with an empty trace. -/
def st_steady : St := { fs := fs_steady, trace := [], initDone := true }

/-- Run state whose filesystem knows key file `a` but no mapper `a`. -/
def st_key_a : St :=
  { fs := { files := ["/mnt/keys/a.key"], mappers := [], dirs := [],
            mountPoints := [], mountedDevs := [] },
    trace := [], initDone := true }

/-- Run state where `/dev/mapper/a` exists and is already mounted. -/
def st_mounted_a : St :=
  { fs := { files := [], mappers := ["/dev/mapper/a"], dirs := [],
            mountPoints := [], mountedDevs := ["/dev/mapper/a"] },
    trace := [], initDone := true }

/-! ## Proof-layer definitions -/

/-- `act` only appends commands satisfying `Q` to the trace. -/
def EmitsOnly (Q : Cmd → Prop) {α : Type} (act : M α) : Prop :=
  ∀ s, ∃ Δ, ((act s).1.trace = s.trace ++ Δ) ∧ ∀ c ∈ Δ, Q c

/-! ## Proof toolkit: sequencing and trace framing -/

theorem bind_ok {α β : Type} {x : M α} {f : α → M β} {s s' : St} {a : α}
    (h : x s = (s', Except.ok a)) : M.bind x f s = f a s' := by
  unfold M.bind
  rw [h]

theorem bind_err {α β : Type} {x : M α} {f : α → M β} {s s' : St}
    (h : x s = (s', Except.error ())) : M.bind x f s = (s', Except.error ()) := by
  unfold M.bind
  rw [h]


theorem emitsOnly_mono {Q Q' : Cmd → Prop} {α : Type} {act : M α}
    (hqq : ∀ c, Q c → Q' c) (h : EmitsOnly Q act) : EmitsOnly Q' act := by
  intro s
  obtain ⟨Δ, h1, h2⟩ := h s
  exact ⟨Δ, h1, fun c hc => hqq c (h2 c hc)⟩

theorem emitsOnly_pure {Q : Cmd → Prop} {α : Type} (a : α) : EmitsOnly Q (M.pure a) :=
  fun s => ⟨[], by simp [M.pure], by simp⟩

theorem emitsOnly_bind {Q : Cmd → Prop} {α β : Type} {x : M α} {f : α → M β}
    (hx : EmitsOnly Q x) (hf : ∀ a, EmitsOnly Q (f a)) : EmitsOnly Q (M.bind x f) := by
  intro s
  obtain ⟨Δ₁, h1, hq1⟩ := hx s
  cases hxs : x s with
  | mk s' r =>
    rw [hxs] at h1
    cases r with
    | ok a =>
      obtain ⟨Δ₂, h2, hq2⟩ := hf a s'
      refine ⟨Δ₁ ++ Δ₂, ?_, ?_⟩
      · rw [M.bind, hxs]
        dsimp only
        rw [h2, h1, List.append_assoc]
      · intro c hc
        rcases List.mem_append.mp hc with h | h
        · exact hq1 c h
        · exact hq2 c h
    | error e =>
      refine ⟨Δ₁, ?_, hq1⟩
      rw [M.bind, hxs]
      dsimp only
      exact h1

theorem emitsOnly_getFS {Q : Cmd → Prop} : EmitsOnly Q getFS :=
  fun s => ⟨[], by simp [getFS], by simp⟩

theorem emitsOnly_modifyFS {Q : Cmd → Prop} (f : FS → FS) : EmitsOnly Q (modifyFS f) :=
  fun s => ⟨[], by simp [modifyFS], by simp⟩

theorem emitsOnly_setInitDone {Q : Cmd → Prop} (b : Bool) : EmitsOnly Q (setInitDone b) :=
  fun s => ⟨[], by simp [setInitDone], by simp⟩

theorem emitsOnly_note {Q : Cmd → Prop} {c : Cmd} (hc : Q c) : EmitsOnly Q (note c) :=
  fun s => ⟨[c], by simp [note], by simp [hc]⟩

theorem emitsOnly_execCmd {Q : Cmd → Prop} {env : Env} {c : Cmd} (hc : Q c) :
    EmitsOnly Q (execCmd env c) :=
  fun s => ⟨[c], by simp [execCmd], by simp [hc]⟩

theorem emitsOnly_ite {Q : Cmd → Prop} {α : Type} {c : Prop} [Decidable c] {x y : M α}
    (hx : EmitsOnly Q x) (hy : EmitsOnly Q y) : EmitsOnly Q (if c then x else y) := by
  by_cases h : c
  · simpa [h] using hx
  · simpa [h] using hy

theorem emitsOnly_pyTryFinally {Q : Cmd → Prop} {α : Type} {body : M α} {fin : M Unit}
    (hb : EmitsOnly Q body) (hf : EmitsOnly Q fin) : EmitsOnly Q (pyTryFinally body fin) := by
  intro s
  obtain ⟨Δ₁, h1, hq1⟩ := hb s
  cases hbs : body s with
  | mk s' r =>
    rw [hbs] at h1
    obtain ⟨Δ₂, h2, hq2⟩ := hf s'
    cases hfs : fin s' with
    | mk s'' r' =>
      rw [hfs] at h2
      refine ⟨Δ₁ ++ Δ₂, ?_, ?_⟩
      · rw [pyTryFinally, hbs]
        dsimp only
        rw [hfs]
        cases r' with
        | ok u => dsimp only; rw [h2, h1, List.append_assoc]
        | error e => dsimp only; rw [h2, h1, List.append_assoc]
      · intro c hc
        rcases List.mem_append.mp hc with h | h
        · exact hq1 c h
        · exact hq2 c h

theorem emitsOnly_finalizerExit {Q : Cmd → Prop} {env : Env} {c : Cmd} {enabled : Bool}
    (hc : enabled = true → Q c) : EmitsOnly Q (finalizerExit env c enabled) := by
  cases enabled with
  | true => simpa [finalizerExit] using emitsOnly_execCmd (hc rfl)
  | false => simpa [finalizerExit] using emitsOnly_pure ()

theorem emitsOnly_withFinalizer {Q : Cmd → Prop} {α : Type} {env : Env} {c : Cmd}
    {enabled : Bool} {body : M α} (hb : EmitsOnly Q body) (hc : enabled = true → Q c) :
    EmitsOnly Q (withFinalizer env c enabled body) :=
  emitsOnly_pyTryFinally hb (emitsOnly_finalizerExit hc)

theorem emitsOnly_foldListM {Q : Cmd → Prop} {α β : Type} {f : β → α → M β}
    (hf : ∀ acc x, EmitsOnly Q (f acc x)) (l : List α) (acc : β) :
    EmitsOnly Q (foldListM f acc l) := by
  induction l generalizing acc with
  | nil => exact emitsOnly_pure acc
  | cons x xs ih => exact emitsOnly_bind (hf acc x) fun acc' => ih acc'

theorem filter_eq_of_emitsOnly {Q : Cmd → Prop} {p : Cmd → Bool} {α : Type} {act : M α}
    (hpq : ∀ c, Q c → p c = false) (h : EmitsOnly Q act) (s : St) :
    ((act s).1.trace.filter p) = s.trace.filter p := by
  obtain ⟨Δ, h1, h2⟩ := h s
  rw [h1, List.filter_append]
  have : Δ.filter p = [] := List.filter_eq_nil_iff.mpr fun c hc => by
    simp [hpq c (h2 c hc)]
  rw [this, List.append_nil]

/-! ## Trace framing of the program components -/

theorem emitsOnly_dnm {Q : Cmd → Prop} {env : Env} {dev : String} (hc : Q (.blkid dev)) :
    EmitsOnly Q (drive_needs_mounting env dev) := by
  unfold drive_needs_mounting
  refine emitsOnly_bind emitsOnly_getFS fun fs => ?_
  refine emitsOnly_ite (emitsOnly_pure _) ?_
  exact emitsOnly_bind (emitsOnly_execCmd hc) fun _ =>
    emitsOnly_ite (emitsOnly_pure _) (emitsOnly_pure _)

theorem emitsOnly_activate (env : Env) (mn pd kd : String) (r : Bool) :
    EmitsOnly Cmd.isActivateCmd (activate_encrypted_drive env mn pd kd r) := by
  unfold activate_encrypted_drive
  refine emitsOnly_bind emitsOnly_getFS fun fs => ?_
  refine emitsOnly_bind ?_ fun st1 => ?_
  · refine emitsOnly_ite ?_ (emitsOnly_pure _)
    refine emitsOnly_bind emitsOnly_getFS fun fs2 => ?_
    refine emitsOnly_bind ?_ fun st0 => ?_
    · refine emitsOnly_ite ?_ (emitsOnly_pure _)
      exact emitsOnly_bind (emitsOnly_execCmd trivial) fun _ =>
        emitsOnly_bind (emitsOnly_execCmd trivial) fun _ => emitsOnly_pure _
    · refine emitsOnly_ite ?_ (emitsOnly_pure _)
      exact emitsOnly_bind (emitsOnly_execCmd trivial) fun _ => emitsOnly_pure _
  · refine emitsOnly_bind (emitsOnly_dnm trivial) fun needs => ?_
    refine emitsOnly_ite ?_ (emitsOnly_pure _)
    exact emitsOnly_bind (emitsOnly_execCmd trivial) fun _ => emitsOnly_pure _

theorem emitsOnly_process (env : Env) (mp : String) (fr : Bool) (vols : List String)
    (counts : Nat × Nat × Nat) (e : CryptEntry) :
    EmitsOnly Cmd.isActivateCmd (process_drive env mp fr vols counts e) := by
  obtain ⟨nc, na, nu⟩ := counts
  unfold process_drive
  refine emitsOnly_ite (emitsOnly_pure _) ?_
  refine emitsOnly_ite ?_ (emitsOnly_pure _)
  exact emitsOnly_bind (emitsOnly_activate env e.target e.source_device mp fr)
    fun status => emitsOnly_pure _

theorem emitsOnly_loop (env : Env) (mp : String) (fr : Bool) (vols : List String)
    (acc : Nat × Nat × Nat) (l : List CryptEntry) :
    EmitsOnly Cmd.isActivateCmd (foldListM (process_drive env mp fr vols) acc l) :=
  emitsOnly_foldListM (fun acc e => emitsOnly_process env mp fr vols acc e) l acc

theorem emitsOnly_mount_scope {Q : Cmd → Prop} {env : Env} {mn mp : String}
    {vols : List String} {fr cl : Bool}
    (h1 : Q (.mkfs_ext4 ("/dev/mapper/" ++ mn)))
    (h2 : Q (.mount_at ("/dev/mapper/" ++ mn) mp))
    (h3 : ∀ c, Cmd.isActivateCmd c → Q c)
    (h4 : cl = true → Q (.umount mp)) :
    EmitsOnly Q (mount_scope env mn mp vols fr cl) := by
  unfold mount_scope
  refine emitsOnly_bind ?_ fun _ => ?_
  · exact emitsOnly_ite
      (emitsOnly_bind (emitsOnly_execCmd h1) fun _ => emitsOnly_setInitDone true)
      (emitsOnly_pure _)
  refine emitsOnly_bind emitsOnly_getFS fun fs => ?_
  refine emitsOnly_bind (emitsOnly_ite (emitsOnly_modifyFS _) (emitsOnly_pure _)) fun _ => ?_
  refine emitsOnly_bind emitsOnly_getFS fun fs2 => ?_
  refine emitsOnly_bind (emitsOnly_ite (emitsOnly_pure _) (emitsOnly_execCmd h2)) fun _ => ?_
  exact emitsOnly_withFinalizer
    (emitsOnly_mono h3 (emitsOnly_loop env mp fr vols (0, 0, 0) (find_managed_drives env mp)))
    h4

theorem emitsOnly_unlock_scope {Q : Cmd → Prop} {env : Env} {image mn mp : String}
    {vols : List String} {fr cl : Bool}
    (h0 : Q (.dd_zero image (1024 * 1024) 10))
    (h0' : Q (.luksFormat image))
    (h0'' : Q (.luksOpen image mn))
    (h1 : Q (.mkfs_ext4 ("/dev/mapper/" ++ mn)))
    (h2 : Q (.mount_at ("/dev/mapper/" ++ mn) mp))
    (h3 : ∀ c, Cmd.isActivateCmd c → Q c)
    (h4 : cl = true → Q (.umount mp))
    (h5 : cl = true → Q (.luksClose mn)) :
    EmitsOnly Q (unlock_scope env image mn mp vols fr cl) := by
  unfold unlock_scope
  refine emitsOnly_bind ?_ fun _ => ?_
  · exact emitsOnly_ite
      (emitsOnly_bind (emitsOnly_execCmd h0) fun _ => emitsOnly_execCmd h0')
      (emitsOnly_pure _)
  refine emitsOnly_bind emitsOnly_getFS fun fs => ?_
  refine emitsOnly_bind (emitsOnly_ite (emitsOnly_execCmd h0'') (emitsOnly_pure _)) fun _ => ?_
  exact emitsOnly_withFinalizer (emitsOnly_mount_scope h1 h2 h3 h4) h5

theorem emitsOnly_rollbackFin {Q : Cmd → Prop} (image : String) :
    EmitsOnly Q (rollbackFin image) := by
  intro s
  refine ⟨[], ?_, by simp⟩
  unfold rollbackFin
  split
  · simp
  · split <;> simp

/-! ## C10: `match_prefix` semantics -/

theorem not_isPrefixOf_append_sep (l : List Char) : (l ++ ['/']).isPrefixOf l = false := by
  by_contra h
  rw [Bool.not_eq_false] at h
  have := (List.isPrefixOf_iff_prefix.mp h).length_le
  simp at this

/-- Claim C10, counterexample to the claim as stated: for the root prefix the
normalized prefix already ends in the separator, so the code compares against
`"/"` itself; a pathname exactly equal to the prefix directory then returns
`true`, not `false`. -/
theorem C10_counterexample : match_prefix "/" "/" = true := by decide

/-- Claim C10 (amended): provided the normalized prefix does not itself end
with the path separator (i.e. is not the filesystem root `/` or `//`),
`match_prefix pathname pfx` returns true iff the normalized pathname starts
with the normalized prefix followed by a separator; in particular a pathname
whose normalization equals the normalized prefix returns false, a sibling path
sharing only a string prefix (`/mnt/keys2/...` against `/mnt/keys`) returns
false, and such crypttab entries are never classified as managed by
`find_managed_drives`. -/
theorem C10_matchPrefix_amended :
    (∀ pathname pfx : String, (normpathL pfx.toList).getLast? ≠ some '/' →
      match_prefix pathname pfx =
        (normpathL pfx.toList ++ ['/']).isPrefixOf (normpathL pathname.toList)) ∧
    (∀ pathname pfx : String, (normpathL pfx.toList).getLast? ≠ some '/' →
      normpathL pathname.toList = normpathL pfx.toList →
      match_prefix pathname pfx = false) ∧
    match_prefix "/mnt/keys2/data.key" "/mnt/keys" = false ∧
    (∀ (env : Env) (e : CryptEntry), e.key_file = some "/mnt/keys2/data.key" →
      e ∉ find_managed_drives env "/mnt/keys") := by
  have hmain : ∀ pathname pfx : String, (normpathL pfx.toList).getLast? ≠ some '/' →
      match_prefix pathname pfx =
        (normpathL pfx.toList ++ ['/']).isPrefixOf (normpathL pathname.toList) := by
    intro pathname pfx h
    simp only [ match_prefix, matchPrefixL]
    rw [if_neg h]
  refine ⟨hmain, ?_, by decide, ?_⟩
  · intro pathname pfx h heq
    rw [hmain pathname pfx h, heq]
    exact not_isPrefixOf_append_sep _
  · intro env e hk hmem
    have hpred := (List.mem_filter.mp hmem).2
    rw [hk] at hpred
    have : match_prefix "/mnt/keys2/data.key" "/mnt/keys" = false := by decide
    simp [this] at hpred

/-- Witness for C10: applying the amended theorem at a concrete input where the
pathname normalizes to the prefix (`/mnt/keys/../keys` vs `/mnt/keys`). -/
theorem C10_matchPrefix_amended_witness :
    match_prefix "/mnt/keys/../keys" "/mnt/keys" = false :=
  C10_matchPrefix_amended.2.1 "/mnt/keys/../keys" "/mnt/keys" (by decide) (by decide)

/-! ## C4 and C5: the allow-list filter and the run-summary tallies -/

/-- Claim C4: with a non-empty `volumes` allow-list, an entry whose target is
not in the list is a complete no-op for the activation machinery — the
processing step returns the state unchanged (so `activate_encrypted_drive` is
never invoked and no command is emitted) and only the configured tally is
incremented: the available and unlocked tallies are untouched. -/
theorem C4_filter_correct (env : Env) (mp : String) (fr : Bool) (vols : List String)
    (counts : Nat × Nat × Nat) (e : CryptEntry) (s : St)
    (hne : vols ≠ []) (hout : vols.contains e.target = false) :
    process_drive env mp fr vols counts e s =
      (s, Except.ok (counts.1 + 1, counts.2.1, counts.2.2)) := by
  obtain ⟨nc, na, nu⟩ := counts
  have hv : vols.isEmpty = false := by
    cases vols with
    | nil => exact absurd rfl hne
    | cons x xs => rfl
  have hout' : e.target ∉ vols := by simpa using hout
  unfold process_drive
  simp [hv, hout', M.pure]

/-- Witness for C4 at a concrete filtered entry. -/
theorem C4_filter_correct_witness :
    process_drive env_allok_ab "/mnt/keys" false ["b"] (0, 0, 0) ent_a st_steady =
      (st_steady, Except.ok (1, 0, 0)) :=
  C4_filter_correct env_allok_ab "/mnt/keys" false ["b"] (0, 0, 0) ent_a st_steady
    (by decide) (by decide)

/-- Claim C5, counterexample: a run over one managed entry (`a`) with the
allow-list `["b"]` skips the entry but still reports `configured = 1`; the
claim predicts the skipped entry would not contribute to the configured tally
(i.e. `configured = 0`). -/
theorem C5_counterexample :
    (runInit env_allok_a "/boot/keys.img" "keys" "/mnt/keys" ["b"] (some false)
        fs_steady).2 = Except.ok (1, 0, 0) := by decide

/-- Claim C5 (amended): every managed entry whose processing step completes
increments the configured tally by exactly one, whether or not it passes the
allow-list filter; the filter only controls the available and unlocked
tallies. -/
theorem C5_configured_tally (env : Env) (mp : String) (fr : Bool) (vols : List String)
    (counts : Nat × Nat × Nat) (e : CryptEntry) (s : St) (c : Nat × Nat × Nat)
    (h : (process_drive env mp fr vols counts e s).2 = Except.ok c) :
    c.1 = counts.1 + 1 := by
  obtain ⟨nc, na, nu⟩ := counts
  unfold process_drive at h
  dsimp only at h
  by_cases h1 : (!vols.isEmpty && !(vols.contains e.target)) = true
  · rw [if_pos h1] at h
    simp [M.pure] at h
    simp [← h]
  · rw [if_neg h1] at h
    by_cases h2 : e.is_available = true
    · rw [if_pos h2] at h
      unfold M.bind at h
      cases hact : activate_encrypted_drive env e.target e.source_device mp fr s with
      | mk s2 r =>
        rw [hact] at h
        cases r with
        | ok status =>
          simp [M.pure] at h
          simp [← h]
        | error e' => simp at h
    · rw [if_neg h2] at h
      simp [M.pure] at h
      simp [← h]

/-- Witness for C5's amended theorem: the concrete filtered run of
`C5_counterexample` indeed reports `configured = 0 + 1`. -/
theorem C5_configured_tally_witness :
    (process_drive env_allok_a "/mnt/keys" false ["b"] (0, 0, 0) ent_a st_steady).2 =
        Except.ok (1, 0, 0) ∧ (1, 0, 0).1 = (0, 0, 0).1 + 1 :=
  ⟨by decide,
   C5_configured_tally env_allok_a "/mnt/keys" false ["b"] (0, 0, 0) ent_a st_steady
     (1, 0, 0) (by decide)⟩

/-! ## C2: first-run rollback invariant -/

theorem rollbackFin_ok (image : String) (s : St) :
    (rollbackFin image s).2 = Except.ok () := by
  unfold rollbackFin
  split
  · rfl
  · split <;> rfl

theorem rollbackFin_initDone (image : String) (s : St) :
    (rollbackFin image s).1.initDone = s.initDone := by
  unfold rollbackFin
  split
  · rfl
  · split <;> rfl

theorem rollbackFin_files (image : String) (s : St) (h : s.initDone = false) :
    image ∉ (rollbackFin image s).1.fs.files := by
  unfold rollbackFin
  rw [if_neg (by simp [h])]
  split
  · dsimp only
    intro hmem
    exact absurd (List.mem_filter.mp hmem).2 (by simp)
  · rename_i hc
    dsimp only
    simpa using hc

theorem pyTryFinally_out {α : Type} (body : M α) (fin : M Unit) (s : St)
    (hfin : ∀ s', (fin s').2 = Except.ok ()) :
    pyTryFinally body fin s = ((fin (body s).1).1, (body s).2) := by
  unfold pyTryFinally
  cases hb : body s with
  | mk s' r =>
    cases hf : fin s' with
    | mk s'' r' =>
      have hok := hfin s'
      rw [hf] at hok
      dsimp only at hok
      subst hok
      dsimp only
      rw [hf]

theorem rollback_post {α : Type} (body : M α) (image : String) (s : St)
    (h : (pyTryFinally body (rollbackFin image) s).1.initDone = false) :
    image ∉ (pyTryFinally body (rollbackFin image) s).1.fs.files := by
  rw [pyTryFinally_out body (rollbackFin image) s (rollbackFin_ok image)] at h ⊢
  dsimp only at h ⊢
  rw [rollbackFin_initDone] at h
  exact rollbackFin_files image (body s).1 h

/-- Claim C2: a run that starts with `image_file` absent (first-run
provisioning) and ends with `initialized` still false leaves no backing image
file behind: the `finally` block checks `initialized` and deletes `image_file`
whenever it is present, whatever stage the run failed at. -/
theorem C2_rollback (env : Env) (image mn mp : String) (vols : List String)
    (cl : Option Bool) (fs : FS)
    (habs : fs.files.contains image = false)
    (hfail : (runInit env image mn mp vols cl fs).1.initDone = false) :
    image ∉ (runInit env image mn mp vols cl fs).1.fs.files := by
  rcases cl with _ | b
  · have hrun : runInit env image mn mp vols none fs =
        pyTryFinally
          (unlock_scope env image mn mp vols (!(fs.files.contains image))
            (initKeysCleanup env mp none))
          (rollbackFin image)
          { fs := fs, trace := [Cmd.sysd_query mp],
            initDone := !(!(fs.files.contains image)) } := rfl
    rw [hrun] at hfail ⊢
    exact rollback_post _ image _ hfail
  · have hrun : runInit env image mn mp vols (some b) fs =
        pyTryFinally
          (unlock_scope env image mn mp vols (!(fs.files.contains image)) b)
          (rollbackFin image)
          { fs := fs, trace := [], initDone := !(!(fs.files.contains image)) } := rfl
    rw [hrun] at hfail ⊢
    exact rollback_post _ image _ hfail

/-- Witness for C2: first-run provisioning in which `luksFormat` fails — the
image file created by `dd` is rolled back. -/
theorem C2_rollback_witness :
    (runInit env_fmt_fail "/boot/keys.img" "keys" "/mnt/keys" [] (some true)
        fs_empty).1.initDone = false ∧
      "/boot/keys.img" ∉
        (runInit env_fmt_fail "/boot/keys.img" "keys" "/mnt/keys" [] (some true)
          fs_empty).1.fs.files :=
  ⟨by decide,
   C2_rollback env_fmt_fail "/boot/keys.img" "keys" "/mnt/keys" [] (some true)
     fs_empty (by decide) (by decide)⟩

/-! ## C7: re-activation of an already-active drive is a no-op -/

/-- Claim C7: calling `activate_encrypted_drive` with `reset = false` when the
device-mapper mapping already exists and `drive_needs_mounting` reports false
returns `DriveStatus.DEFAULT` (all three flags unset) and executes no
key-generation, add-key, start-mapping or mount command: the only possible
trace extension is the metadata query (`blkid`) made by
`drive_needs_mounting` itself. -/
theorem C7_already_active_noop (env : Env) (mn pd kd : String) (s : St)
    (hdev : s.fs.mappers.contains ("/dev/mapper/" ++ mn) = true)
    (hneeds : (drive_needs_mounting env ("/dev/mapper/" ++ mn) s).2 = Except.ok false) :
    activate_encrypted_drive env mn pd kd false s =
      ((drive_needs_mounting env ("/dev/mapper/" ++ mn) s).1,
        Except.ok DriveStatus.DEFAULT) ∧
    ∃ Δ, (drive_needs_mounting env ("/dev/mapper/" ++ mn) s).1.trace = s.trace ++ Δ ∧
      ∀ c ∈ Δ, c = Cmd.blkid ("/dev/mapper/" ++ mn) := by
  constructor
  · unfold activate_encrypted_drive
    rw [bind_ok (rfl : getFS s = (s, Except.ok s.fs))]
    rw [hdev]
    rw [bind_ok (rfl :
      (if (false || !true) = true then _ else M.pure DriveStatus.DEFAULT) s =
        (s, Except.ok DriveStatus.DEFAULT))]
    cases hd : drive_needs_mounting env ("/dev/mapper/" ++ mn) s with
    | mk s2 r =>
      rw [hd] at hneeds
      dsimp only at hneeds
      subst hneeds
      rw [bind_ok hd]
      rfl
  · exact @emitsOnly_dnm (fun c => c = Cmd.blkid ("/dev/mapper/" ++ mn)) env ("/dev/mapper/" ++ mn) rfl s

/-- Witness for C7: a mounted, already-unlocked drive `a`. -/
theorem C7_already_active_noop_witness :
    activate_encrypted_drive env_allok_ab "a" "/dev/sda2" "/mnt/keys" false st_mounted_a =
      ((drive_needs_mounting env_allok_ab ("/dev/mapper/" ++ "a") st_mounted_a).1,
        Except.ok DriveStatus.DEFAULT) :=
  (C7_already_active_noop env_allok_ab "a" "/dev/sda2" "/mnt/keys" st_mounted_a
    (by decide) (by decide)).1

/-! ## C6: key rotation on reset -/

/-- Claim C6: every call to `activate_encrypted_drive` with `reset = true`
first runs `dd if=/dev/urandom bs=4 count=1024` (a fresh secret of
`4 * 1024 = 4096` random bytes) targeting `<keys_directory>/<mapper_name>.key`
— unconditionally, even if a key file already exists at that path (the state
`s` is universally quantified, including states whose `files` contain the key
path); and whenever the call returns a result, the key file was installed via
`cryptsetup luksAddKey` on `physical_device` and the `INITIALIZED`
(`key_installed`) flag is set in the returned status. -/
theorem C6_key_rotation (env : Env) (mn pd kd : String) (s : St) :
    (∃ Δ, (activate_encrypted_drive env mn pd kd true s).1.trace =
        s.trace ++ Cmd.dd_urandom (ospath_join kd (mn ++ ".key")) 4 1024 :: Δ ∧
      ∀ st, (activate_encrypted_drive env mn pd kd true s).2 = Except.ok st →
        Cmd.luksAddKey pd (ospath_join kd (mn ++ ".key")) ∈ Δ ∧
          st &&& DriveStatus.INITIALIZED ≠ 0) ∧
    4 * 1024 = 4096 := by
  refine ⟨?_, by norm_num⟩
  by_cases h1 : env.ok (Cmd.dd_urandom (ospath_join kd (mn ++ ".key")) 4 1024) = true
  case neg =>
    rw [Bool.not_eq_true] at h1
    refine ⟨[], ?_, ?_⟩
    · simp [activate_encrypted_drive, M.bind, M.pure, getFS, execCmd, FS.applyCmd, h1]
    · intro st hst
      simp [activate_encrypted_drive, M.bind, M.pure, getFS, execCmd, FS.applyCmd, h1] at hst
  case pos =>
  by_cases h2 : env.ok (Cmd.luksAddKey pd (ospath_join kd (mn ++ ".key"))) = true
  case neg =>
    rw [Bool.not_eq_true] at h2
    refine ⟨[Cmd.luksAddKey pd (ospath_join kd (mn ++ ".key"))], ?_, ?_⟩
    · simp [activate_encrypted_drive, M.bind, M.pure, getFS, execCmd, FS.applyCmd, h1, h2]
    · intro st hst
      simp [activate_encrypted_drive, M.bind, M.pure, getFS, execCmd, FS.applyCmd,
        h1, h2] at hst
  case pos =>
  by_cases h3 : ("/dev/mapper/" ++ mn) ∈ s.fs.mappers
  case pos =>
    by_cases h5 : ("/dev/mapper/" ++ mn) ∈ s.fs.mountedDevs
    case pos =>
      refine ⟨[Cmd.luksAddKey pd (ospath_join kd (mn ++ ".key"))], ?_, ?_⟩
      · simp [activate_encrypted_drive, drive_needs_mounting, M.bind, M.pure, getFS,
          execCmd, FS.applyCmd, h1, h2, h3, h5]
      · intro st hst
        simp [activate_encrypted_drive, drive_needs_mounting, M.bind, M.pure, getFS,
          execCmd, FS.applyCmd, h1, h2, h3, h5] at hst
        subst hst
        exact ⟨by simp, by decide⟩
    case neg =>
      by_cases h6 : env.ok (Cmd.blkid ("/dev/mapper/" ++ mn)) = true
      case neg =>
        rw [Bool.not_eq_true] at h6
        refine ⟨[Cmd.luksAddKey pd (ospath_join kd (mn ++ ".key")),
          Cmd.blkid ("/dev/mapper/" ++ mn)], ?_, ?_⟩
        · simp [activate_encrypted_drive, drive_needs_mounting, M.bind, M.pure, getFS,
            execCmd, FS.applyCmd, h1, h2, h3, h5, h6]
        · intro st hst
          simp [activate_encrypted_drive, drive_needs_mounting, M.bind, M.pure, getFS,
            execCmd, FS.applyCmd, h1, h2, h3, h5, h6] at hst
      case pos =>
        by_cases h7 : ∃ x ∈ env.blkidLines ("/dev/mapper/" ++ mn), lvm_member_line x = true
        case pos =>
          refine ⟨[Cmd.luksAddKey pd (ospath_join kd (mn ++ ".key")),
            Cmd.blkid ("/dev/mapper/" ++ mn)], ?_, ?_⟩
          · simp [activate_encrypted_drive, drive_needs_mounting, M.bind, M.pure, getFS,
              execCmd, FS.applyCmd, h1, h2, h3, h5, h6, h7]
          · intro st hst
            simp [activate_encrypted_drive, drive_needs_mounting, M.bind, M.pure, getFS,
              execCmd, FS.applyCmd, h1, h2, h3, h5, h6, h7] at hst
            subst hst
            exact ⟨by simp, by decide⟩
        case neg =>
          by_cases h8 : env.ok (Cmd.mount_fstab ("/dev/mapper/" ++ mn)) = true
          case pos =>
            refine ⟨[Cmd.luksAddKey pd (ospath_join kd (mn ++ ".key")),
              Cmd.blkid ("/dev/mapper/" ++ mn),
              Cmd.mount_fstab ("/dev/mapper/" ++ mn)], ?_, ?_⟩
            · simp [activate_encrypted_drive, drive_needs_mounting, M.bind, M.pure, getFS,
                execCmd, FS.applyCmd, h1, h2, h3, h5, h6, h7, h8]
            · intro st hst
              simp [activate_encrypted_drive, drive_needs_mounting, M.bind, M.pure, getFS,
                execCmd, FS.applyCmd, h1, h2, h3, h5, h6, h7, h8] at hst
              subst hst
              exact ⟨by simp, by decide⟩
          case neg =>
            rw [Bool.not_eq_true] at h8
            refine ⟨[Cmd.luksAddKey pd (ospath_join kd (mn ++ ".key")),
              Cmd.blkid ("/dev/mapper/" ++ mn),
              Cmd.mount_fstab ("/dev/mapper/" ++ mn)], ?_, ?_⟩
            · simp [activate_encrypted_drive, drive_needs_mounting, M.bind, M.pure, getFS,
                execCmd, FS.applyCmd, h1, h2, h3, h5, h6, h7, h8]
            · intro st hst
              simp [activate_encrypted_drive, drive_needs_mounting, M.bind, M.pure, getFS,
                execCmd, FS.applyCmd, h1, h2, h3, h5, h6, h7, h8] at hst
  case neg =>
    by_cases h4 : env.ok (Cmd.cryptdisks_start mn) = true
    case neg =>
      rw [Bool.not_eq_true] at h4
      refine ⟨[Cmd.luksAddKey pd (ospath_join kd (mn ++ ".key")),
        Cmd.cryptdisks_start mn], ?_, ?_⟩
      · simp [activate_encrypted_drive, M.bind, M.pure, getFS, execCmd, FS.applyCmd,
          h1, h2, h3, h4]
      · intro st hst
        simp [activate_encrypted_drive, M.bind, M.pure, getFS, execCmd, FS.applyCmd,
          h1, h2, h3, h4] at hst
    case pos =>
      by_cases h5 : ("/dev/mapper/" ++ mn) ∈ s.fs.mountedDevs
      case pos =>
        refine ⟨[Cmd.luksAddKey pd (ospath_join kd (mn ++ ".key")),
          Cmd.cryptdisks_start mn], ?_, ?_⟩
        · simp [activate_encrypted_drive, drive_needs_mounting, M.bind, M.pure, getFS,
            execCmd, FS.applyCmd, h1, h2, h3, h4, h5]
        · intro st hst
          simp [activate_encrypted_drive, drive_needs_mounting, M.bind, M.pure, getFS,
            execCmd, FS.applyCmd, h1, h2, h3, h4, h5] at hst
          subst hst
          exact ⟨by simp, by decide⟩
      case neg =>
        by_cases h6 : env.ok (Cmd.blkid ("/dev/mapper/" ++ mn)) = true
        case neg =>
          rw [Bool.not_eq_true] at h6
          refine ⟨[Cmd.luksAddKey pd (ospath_join kd (mn ++ ".key")),
            Cmd.cryptdisks_start mn, Cmd.blkid ("/dev/mapper/" ++ mn)], ?_, ?_⟩
          · simp [activate_encrypted_drive, drive_needs_mounting, M.bind, M.pure, getFS,
              execCmd, FS.applyCmd, h1, h2, h3, h4, h5, h6]
          · intro st hst
            simp [activate_encrypted_drive, drive_needs_mounting, M.bind, M.pure, getFS,
              execCmd, FS.applyCmd, h1, h2, h3, h4, h5, h6] at hst
        case pos =>
          by_cases h7 : ∃ x ∈ env.blkidLines ("/dev/mapper/" ++ mn), lvm_member_line x = true
          case pos =>
            refine ⟨[Cmd.luksAddKey pd (ospath_join kd (mn ++ ".key")),
              Cmd.cryptdisks_start mn, Cmd.blkid ("/dev/mapper/" ++ mn)], ?_, ?_⟩
            · simp [activate_encrypted_drive, drive_needs_mounting, M.bind, M.pure, getFS,
                execCmd, FS.applyCmd, h1, h2, h3, h4, h5, h6, h7]
            · intro st hst
              simp [activate_encrypted_drive, drive_needs_mounting, M.bind, M.pure, getFS,
                execCmd, FS.applyCmd, h1, h2, h3, h4, h5, h6, h7] at hst
              subst hst
              exact ⟨by simp, by decide⟩
          case neg =>
            by_cases h8 : env.ok (Cmd.mount_fstab ("/dev/mapper/" ++ mn)) = true
            case pos =>
              refine ⟨[Cmd.luksAddKey pd (ospath_join kd (mn ++ ".key")),
                Cmd.cryptdisks_start mn, Cmd.blkid ("/dev/mapper/" ++ mn),
                Cmd.mount_fstab ("/dev/mapper/" ++ mn)], ?_, ?_⟩
              · simp [activate_encrypted_drive, drive_needs_mounting, M.bind, M.pure, getFS,
                  execCmd, FS.applyCmd, h1, h2, h3, h4, h5, h6, h7, h8]
              · intro st hst
                simp [activate_encrypted_drive, drive_needs_mounting, M.bind, M.pure, getFS,
                  execCmd, FS.applyCmd, h1, h2, h3, h4, h5, h6, h7, h8] at hst
                subst hst
                exact ⟨by simp, by decide⟩
            case neg =>
              rw [Bool.not_eq_true] at h8
              refine ⟨[Cmd.luksAddKey pd (ospath_join kd (mn ++ ".key")),
                Cmd.cryptdisks_start mn, Cmd.blkid ("/dev/mapper/" ++ mn),
                Cmd.mount_fstab ("/dev/mapper/" ++ mn)], ?_, ?_⟩
              · simp [activate_encrypted_drive, drive_needs_mounting, M.bind, M.pure, getFS,
                  execCmd, FS.applyCmd, h1, h2, h3, h4, h5, h6, h7, h8]
              · intro st hst
                simp [activate_encrypted_drive, drive_needs_mounting, M.bind, M.pure, getFS,
                  execCmd, FS.applyCmd, h1, h2, h3, h4, h5, h6, h7, h8] at hst

/-- Witness for C6: rotating the key of drive `a` while a key file already
exists at `/mnt/keys/a.key`; the run returns status 7
(INITIALIZED | UNLOCKED | MOUNTED). -/
theorem C6_key_rotation_witness :
    Cmd.luksAddKey "/dev/sda2" (ospath_join "/mnt/keys" ("a" ++ ".key")) ∈
        (activate_encrypted_drive env_allok_ab "a" "/dev/sda2" "/mnt/keys" true
          st_key_a).1.trace ∧
      (7 : Nat) &&& DriveStatus.INITIALIZED ≠ 0 := by
  obtain ⟨⟨Δ, htr, hok⟩, -⟩ :=
    C6_key_rotation env_allok_ab "a" "/dev/sda2" "/mnt/keys" st_key_a
  obtain ⟨hmem, hbit⟩ := hok 7 (by decide)
  refine ⟨?_, hbit⟩
  rw [htr]
  simp only [List.mem_append, List.mem_cons]
  exact Or.inr (Or.inr hmem)

/-! ## C8: LVM members are never mounted -/

theorem partitionEqL_append (k v : List Char) (hk : '=' ∉ k) :
    partitionEqL (k ++ '=' :: v) = (k, v) := by
  induction k with
  | nil => simp [partitionEqL]
  | cons x xs ih =>
    have hx : x ≠ '=' := fun h => hk (h ▸ List.mem_cons_self x xs)
    have hxs : '=' ∉ xs := fun h => hk (List.mem_cons_of_mem x h)
    simp [partitionEqL, hx, ih hxs]

theorem lvm_member_line_of_parts (l : String) (k v : List Char)
    (hl : l.toList = k ++ '=' :: v) (hk : '=' ∉ k)
    (hklow : lowerL k = "type".toList) (hvlow : lowerL v = "lvm2_member".toList) :
    lvm_member_line l = true := by
  unfold lvm_member_line
  rw [hl, partitionEqL_append k v hk]
  dsimp only
  rw [hklow, hvlow]
  simp

theorem dnm_false_of_lvm (env : Env) (md : String)
    (hok : env.ok (Cmd.blkid md) = true)
    (hlvm : ∃ x ∈ env.blkidLines md, lvm_member_line x = true) (s : St) :
    (drive_needs_mounting env md s).2 = Except.ok false := by
  unfold drive_needs_mounting
  by_cases hm : md ∈ s.fs.mountedDevs
  · simp [M.bind, getFS, M.pure, hm]
  · simp [M.bind, getFS, M.pure, execCmd, FS.applyCmd, hm, hok, hlvm]

theorem emitsOnly_bind_known {Q : Cmd → Prop} {α β : Type} {x : M α} {f : α → M β}
    (P : α → Prop) (hx : EmitsOnly Q x)
    (hres : ∀ s s' a, x s = (s', Except.ok a) → P a)
    (hf : ∀ a, P a → EmitsOnly Q (f a)) : EmitsOnly Q (M.bind x f) := by
  intro s
  obtain ⟨Δ₁, h1, hq1⟩ := hx s
  cases hxs : x s with
  | mk s' r =>
    rw [hxs] at h1
    cases r with
    | ok a =>
      obtain ⟨Δ₂, h2, hq2⟩ := hf a (hres s s' a hxs) s'
      refine ⟨Δ₁ ++ Δ₂, ?_, ?_⟩
      · rw [M.bind, hxs]
        dsimp only
        rw [h2, h1, List.append_assoc]
      · intro c hc
        rcases List.mem_append.mp hc with h | h
        · exact hq1 c h
        · exact hq2 c h
    | error e =>
      refine ⟨Δ₁, ?_, hq1⟩
      rw [M.bind, hxs]
      dsimp only
      exact h1

theorem emitsOnly_activate_lvm (env : Env) (mn pd kd : String) (reset : Bool)
    (hdnm : ∀ s,
      (drive_needs_mounting env ("/dev/mapper/" ++ mn) s).2 = Except.ok false) :
    EmitsOnly (fun c => c ≠ Cmd.mount_fstab ("/dev/mapper/" ++ mn))
      (activate_encrypted_drive env mn pd kd reset) := by
  unfold activate_encrypted_drive
  refine emitsOnly_bind emitsOnly_getFS fun fs => ?_
  refine emitsOnly_bind ?_ fun st1 => ?_
  · refine emitsOnly_ite ?_ (emitsOnly_pure _)
    refine emitsOnly_bind emitsOnly_getFS fun fs2 => ?_
    refine emitsOnly_bind ?_ fun st0 => ?_
    · refine emitsOnly_ite ?_ (emitsOnly_pure _)
      exact emitsOnly_bind (emitsOnly_execCmd (by simp)) fun _ =>
        emitsOnly_bind (emitsOnly_execCmd (by simp)) fun _ => emitsOnly_pure _
    · refine emitsOnly_ite ?_ (emitsOnly_pure _)
      exact emitsOnly_bind (emitsOnly_execCmd (by simp)) fun _ => emitsOnly_pure _
  · refine emitsOnly_bind_known (fun b => b = false) (emitsOnly_dnm (by simp)) ?_ ?_
    · intro s s' a hx
      have hd := hdnm s
      rw [hx] at hd
      dsimp only at hd
      exact Except.ok.inj hd
    · intro a ha
      subst ha
      rw [if_neg (by simp)]
      exact emitsOnly_pure _

/-- Claim C8: if the block-device metadata query for a mapper device reports a
`TYPE` value of `lvm2_member` (matched case-insensitively on both key and
value), `drive_needs_mounting` returns false from every state — whether or not
the device appears in the mount table — and consequently
`activate_encrypted_drive` never emits a mount command for that device. -/
theorem C8_lvm_never_mounted (env : Env) (mn : String)
    (hok : env.ok (Cmd.blkid ("/dev/mapper/" ++ mn)) = true)
    (hline : ∃ l ∈ env.blkidLines ("/dev/mapper/" ++ mn), ∃ k v : List Char,
      l.toList = k ++ '=' :: v ∧ '=' ∉ k ∧ lowerL k = "type".toList ∧
        lowerL v = "lvm2_member".toList) :
    (∀ s, (drive_needs_mounting env ("/dev/mapper/" ++ mn) s).2 = Except.ok false) ∧
    (∀ (pd kd : String) (reset : Bool) (s : St),
      Cmd.mount_fstab ("/dev/mapper/" ++ mn) ∈
          (activate_encrypted_drive env mn pd kd reset s).1.trace →
        Cmd.mount_fstab ("/dev/mapper/" ++ mn) ∈ s.trace) := by
  obtain ⟨l, hlmem, k, v, hl, hk, hklow, hvlow⟩ := hline
  have hlvm : ∃ x ∈ env.blkidLines ("/dev/mapper/" ++ mn), lvm_member_line x = true :=
    ⟨l, hlmem, lvm_member_line_of_parts l k v hl hk hklow hvlow⟩
  have hdnm := dnm_false_of_lvm env ("/dev/mapper/" ++ mn) hok hlvm
  refine ⟨hdnm, ?_⟩
  intro pd kd reset s hmem
  obtain ⟨Δ, htr, hq⟩ := emitsOnly_activate_lvm env mn pd kd reset hdnm s
  rw [htr] at hmem
  rcases List.mem_append.mp hmem with h | h
  · exact h
  · exact absurd rfl (hq _ h)

/-- Witness for C8: `blkid` reports `TYPE=LVM2_member` for `/dev/mapper/a`. -/
theorem C8_lvm_never_mounted_witness :
    (drive_needs_mounting env_lvm ("/dev/mapper/" ++ "a") st_key_a).2 =
      Except.ok false :=
  (C8_lvm_never_mounted env_lvm "a" (by decide)
    ⟨"TYPE=LVM2_member", by decide, "TYPE".toList, "LVM2_member".toList,
      by decide, by decide, by decide, by decide⟩).1 st_key_a

/-! ## C1: per-volume unlock/mount failures propagate -/

/-- Claim C1, counterexample: entries `a` and `b` are both managed and
available, `cryptdisks_start a` fails.  The run ends in an exception
(`Except.error`), the failure is not converted into a warning-plus-unset-flag,
and the trace shows that entry `b` was never processed (no command beyond the
failing `cryptdisks_start a` was executed), contradicting "no exception
propagates out of the activator, and the orchestration loop proceeds to the
next configured entry". -/
theorem C1_counterexample :
    (runInit env_cda_fail "/boot/keys.img" "keys" "/mnt/keys" [] (some false)
        fs_steady).2 = Except.error () ∧
    (runInit env_cda_fail "/boot/keys.img" "keys" "/mnt/keys" [] (some false)
        fs_steady).1.trace = [Cmd.cryptdisks_start "a"] := by decide

/-- Claim C1 (amended): a failure of the start-mapping operation
(`cryptdisks_start`) or of the mount operation for an individual managed
volume raises `ExternalCommandFailed` out of `activate_encrypted_drive`
(exactly as its docstring documents), and because the orchestration loop binds
entries sequentially, the error at one entry aborts the fold — subsequent
entries are never processed.  Only the scoped teardown finalizers and the
image rollback still run. -/
theorem C1_failure_propagates (env : Env) (mn pd kd : String) :
    (∀ s : St, ("/dev/mapper/" ++ mn) ∉ s.fs.mappers →
      ospath_join kd (mn ++ ".key") ∈ s.fs.files →
      env.ok (Cmd.cryptdisks_start mn) = false →
      (activate_encrypted_drive env mn pd kd false s).2 = Except.error ()) ∧
    (∀ s : St, ("/dev/mapper/" ++ mn) ∈ s.fs.mappers →
      (drive_needs_mounting env ("/dev/mapper/" ++ mn) s).2 = Except.ok true →
      env.ok (Cmd.mount_fstab ("/dev/mapper/" ++ mn)) = false →
      (activate_encrypted_drive env mn pd kd false s).2 = Except.error ()) ∧
    (∀ (mp : String) (fr : Bool) (vols : List String) (counts : Nat × Nat × Nat)
        (e : CryptEntry) (rest : List CryptEntry) (s : St),
      (process_drive env mp fr vols counts e s).2 = Except.error () →
      foldListM (process_drive env mp fr vols) counts (e :: rest) s =
        ((process_drive env mp fr vols counts e s).1, Except.error ())) := by
  refine ⟨?_, ?_, ?_⟩
  · intro s hdev hkey hfail
    simp [activate_encrypted_drive, M.bind, M.pure, getFS, execCmd, FS.applyCmd,
      hdev, hkey, hfail]
  · intro s hdev hneeds hmf
    have hdev' : s.fs.mappers.contains ("/dev/mapper/" ++ mn) = true := by
      simpa using hdev
    unfold activate_encrypted_drive
    rw [bind_ok (rfl : getFS s = (s, Except.ok s.fs))]
    rw [hdev']
    rw [bind_ok (rfl :
      (if (false || !true) = true then _ else M.pure DriveStatus.DEFAULT) s =
        (s, Except.ok DriveStatus.DEFAULT))]
    cases hd : drive_needs_mounting env ("/dev/mapper/" ++ mn) s with
    | mk s2 r =>
      rw [hd] at hneeds
      dsimp only at hneeds
      subst hneeds
      rw [bind_ok hd]
      simp [M.bind, M.pure, execCmd, FS.applyCmd, hmf]
  · intro mp fr vols counts e rest s hE
    unfold foldListM
    cases hp : process_drive env mp fr vols counts e s with
    | mk s2 r =>
      rw [hp] at hE
      dsimp only at hE
      subst hE
      exact bind_err hp

/-- Witness for C1's amended theorem: `cryptdisks_start a` fails while drive
`a` has a key file and no open mapping — the activator returns an error. -/
theorem C1_failure_propagates_witness :
    (activate_encrypted_drive env_cda_fail "a" "/dev/sda2" "/mnt/keys" false
        st_key_a).2 = Except.error () :=
  (C1_failure_propagates env_cda_fail "a" "/dev/sda2" "/mnt/keys").1 st_key_a
    (by decide) (by decide) (by decide)

/-! ## C9: cleanup policy and the quirk query -/

theorem rollbackFin_trace (image : String) (s : St) :
    (rollbackFin image s).1.trace = s.trace := by
  unfold rollbackFin
  split
  · rfl
  · split <;> rfl

theorem actCmd_not_sysd : ∀ c, Cmd.isActivateCmd c → Cmd.isSysdQuery c = false := by
  intro c h
  cases c <;> first | rfl | exact h.elim

theorem actCmd_not_td : ∀ c, Cmd.isActivateCmd c → Cmd.isTeardown c = false := by
  intro c h
  cases c <;> first | rfl | exact h.elim

theorem pyTryFinally_rollback_trace {α : Type} (body : M α) (image : String) (s : St) :
    (pyTryFinally body (rollbackFin image) s).1.trace = (body s).1.trace := by
  rw [pyTryFinally_out body (rollbackFin image) s (rollbackFin_ok image)]
  dsimp only
  rw [rollbackFin_trace]

/-- Claim C9: with `cleanup = None` the init-system-quirk query is consulted
exactly once, with `mount_point` (the run's trace contains exactly one
`sysd_query mount_point` event); if the quirk is present the effective cleanup
is forced to false, so no unmount or lock-close command is ever issued (the
keys volume stays mounted and the mapping open); if the quirk is absent the
effective cleanup is true.  With an explicit boolean `cleanup` the query is
never consulted (no `sysd_query` event at all) and the supplied value is used
as-is. -/
theorem C9_cleanup_policy (env : Env) (image mn mp : String) (vols : List String)
    (fs : FS) :
    ((runInit env image mn mp vols none fs).1.trace.filter Cmd.isSysdQuery =
      [Cmd.sysd_query mp]) ∧
    (have_systemd_dependencies env mp = true →
      (runInit env image mn mp vols none fs).1.trace.filter Cmd.isTeardown = []) ∧
    (∀ b, (runInit env image mn mp vols (some b) fs).1.trace.filter Cmd.isSysdQuery
      = []) ∧
    (initKeysCleanup env mp none = !(have_systemd_dependencies env mp)) ∧
    (∀ b, initKeysCleanup env mp (some b) = b) := by
  have hrunN : runInit env image mn mp vols none fs =
      pyTryFinally
        (unlock_scope env image mn mp vols (!(fs.files.contains image))
          (initKeysCleanup env mp none))
        (rollbackFin image)
        { fs := fs, trace := [Cmd.sysd_query mp],
          initDone := !(!(fs.files.contains image)) } := rfl
  have hrunS : ∀ b, runInit env image mn mp vols (some b) fs =
      pyTryFinally
        (unlock_scope env image mn mp vols (!(fs.files.contains image)) b)
        (rollbackFin image)
        { fs := fs, trace := [], initDone := !(!(fs.files.contains image)) } :=
    fun _ => rfl
  refine ⟨?_, ?_, ?_, rfl, fun _ => rfl⟩
  · rw [hrunN, pyTryFinally_rollback_trace]
    have hemit : EmitsOnly (fun c => Cmd.isSysdQuery c = false)
        (unlock_scope env image mn mp vols (!(fs.files.contains image))
          (initKeysCleanup env mp none)) :=
      emitsOnly_unlock_scope rfl rfl rfl rfl rfl actCmd_not_sysd
        (fun _ => rfl) (fun _ => rfl)
    rw [filter_eq_of_emitsOnly (fun c h => h) hemit]
    rfl
  · intro hq
    have hcl : initKeysCleanup env mp none = false := by
      simp [initKeysCleanup, hq]
    rw [hrunN, hcl, pyTryFinally_rollback_trace]
    have hemit : EmitsOnly (fun c => Cmd.isTeardown c = false)
        (unlock_scope env image mn mp vols (!(fs.files.contains image)) false) :=
      emitsOnly_unlock_scope rfl rfl rfl rfl rfl actCmd_not_td
        (fun h => Bool.noConfusion h) (fun h => Bool.noConfusion h)
    rw [filter_eq_of_emitsOnly (fun c h => h) hemit]
    rfl
  · intro b
    rw [hrunS b, pyTryFinally_rollback_trace]
    have hemit : EmitsOnly (fun c => Cmd.isSysdQuery c = false)
        (unlock_scope env image mn mp vols (!(fs.files.contains image)) b) :=
      emitsOnly_unlock_scope rfl rfl rfl rfl rfl actCmd_not_sysd
        (fun _ => rfl) (fun _ => rfl)
    rw [filter_eq_of_emitsOnly (fun c h => h) hemit]
    rfl

/-- Witness for C9: an environment affected by the systemd quirk (entry `a`'s
generated unit requires mounts under `/mnt/keys`): the query event appears
exactly once and no teardown command is ever issued. -/
theorem C9_cleanup_policy_witness :
    (runInit env_sysd "/boot/keys.img" "keys" "/mnt/keys" [] none
        fs_steady).1.trace.filter Cmd.isSysdQuery = [Cmd.sysd_query "/mnt/keys"] ∧
    (runInit env_sysd "/boot/keys.img" "keys" "/mnt/keys" [] none
        fs_steady).1.trace.filter Cmd.isTeardown = [] := by
  obtain ⟨h1, h2, -, -, -⟩ :=
    C9_cleanup_policy env_sysd "/boot/keys.img" "keys" "/mnt/keys" [] fs_steady
  exact ⟨h1, h2 (by decide)⟩

/-! ## C3: teardown ordering -/

theorem pyTryFinally_rollback_res {α : Type} (body : M α) (image : String) (s : St) :
    (pyTryFinally body (rollbackFin image) s).2 = (body s).2 := by
  rw [pyTryFinally_out body (rollbackFin image) s (rollbackFin_ok image)]

theorem filter_pres_of_emitsOnly {p : Cmd → Bool} {α : Type} {act : M α}
    (h : EmitsOnly (fun c => p c = false) act) :
    ∀ s, ((act s).1.trace.filter p) = s.trace.filter p :=
  fun s => filter_eq_of_emitsOnly (fun _ hc => hc) h s

theorem filter_withFinalizer_true {α : Type} {p : Cmd → Bool} (env : Env) (c : Cmd)
    (body : M α)
    (hb : ∀ s₀, ((body s₀).1.trace.filter p) = s₀.trace.filter p)
    (hc : p c = true) (s : St) :
    ((withFinalizer env c true body s).1.trace.filter p) =
      s.trace.filter p ++ [c] := by
  cases hbs : body s with
  | mk s' r =>
    have hfb := hb s
    rw [hbs] at hfb
    dsimp only at hfb
    rw [withFinalizer, pyTryFinally, hbs]
    dsimp only
    rw [finalizerExit, if_pos rfl]
    cases hok : env.ok c with
    | true => simp [execCmd, hok, List.filter_append, hfb, hc]
    | false => simp [execCmd, hok, List.filter_append, hfb, hc]

theorem td_bind_lift {α β : Type} {p : Cmd → Bool} {x : M α} {f : α → M β}
    (Post : List Cmd → St × Except Unit β → Prop)
    (hx : ∀ s, ((x s).1.trace.filter p) = s.trace.filter p)
    (herr : ∀ (F : List Cmd) (out : St × Except Unit β),
      out.2 = Except.error () → out.1.trace.filter p = F → Post F out)
    (hf : ∀ a s', Post (s'.trace.filter p) (f a s'))
    (s : St) : Post (s.trace.filter p) (M.bind x f s) := by
  cases hxs : x s with
  | mk s' r =>
    have hfx := hx s
    rw [hxs] at hfx
    dsimp only at hfx
    cases r with
    | ok a =>
      rw [bind_ok hxs]
      have hres := hf a s'
      rw [hfx] at hres
      exact hres
    | error e =>
      cases e
      rw [bind_err hxs]
      exact herr _ (s', Except.error ()) rfl hfx

theorem mount_scope_td (env : Env) (mn mp : String) (vols : List String) (fr : Bool)
    (s : St) :
    ((mount_scope env mn mp vols fr true s).2 = Except.error () ∧
      (mount_scope env mn mp vols fr true s).1.trace.filter Cmd.isTeardown =
        s.trace.filter Cmd.isTeardown) ∨
    (mount_scope env mn mp vols fr true s).1.trace.filter Cmd.isTeardown =
      s.trace.filter Cmd.isTeardown ++ [Cmd.umount mp] := by
  have hloop : ∀ s₀, ((foldListM (process_drive env mp fr vols) (0, 0, 0)
      (find_managed_drives env mp) s₀).1.trace.filter Cmd.isTeardown) =
        s₀.trace.filter Cmd.isTeardown :=
    filter_pres_of_emitsOnly
      (emitsOnly_mono actCmd_not_td (emitsOnly_loop env mp fr vols _ _))
  have hW2 : ∀ s₀, ((withFinalizer env (Cmd.umount mp) true
      (foldListM (process_drive env mp fr vols) (0, 0, 0)
        (find_managed_drives env mp)) s₀).1.trace.filter Cmd.isTeardown) =
          s₀.trace.filter Cmd.isTeardown ++ [Cmd.umount mp] :=
    fun s₀ => filter_withFinalizer_true env (Cmd.umount mp) _ hloop rfl s₀
  unfold mount_scope
  refine td_bind_lift
    (fun F out => (out.2 = Except.error () ∧
        out.1.trace.filter Cmd.isTeardown = F) ∨
      out.1.trace.filter Cmd.isTeardown = F ++ [Cmd.umount mp])
    (filter_pres_of_emitsOnly (emitsOnly_ite
      (emitsOnly_bind (emitsOnly_execCmd rfl) fun _ => emitsOnly_setInitDone true)
      (emitsOnly_pure _)))
    (fun F out h1 h2 => Or.inl ⟨h1, h2⟩) ?_ s
  intro a s1
  refine td_bind_lift
    (fun F out => (out.2 = Except.error () ∧
        out.1.trace.filter Cmd.isTeardown = F) ∨
      out.1.trace.filter Cmd.isTeardown = F ++ [Cmd.umount mp])
    (filter_pres_of_emitsOnly emitsOnly_getFS)
    (fun F out h1 h2 => Or.inl ⟨h1, h2⟩) ?_ s1
  intro fs s2
  refine td_bind_lift
    (fun F out => (out.2 = Except.error () ∧
        out.1.trace.filter Cmd.isTeardown = F) ∨
      out.1.trace.filter Cmd.isTeardown = F ++ [Cmd.umount mp])
    (filter_pres_of_emitsOnly (emitsOnly_ite (emitsOnly_modifyFS _) (emitsOnly_pure _)))
    (fun F out h1 h2 => Or.inl ⟨h1, h2⟩) ?_ s2
  intro b s3
  refine td_bind_lift
    (fun F out => (out.2 = Except.error () ∧
        out.1.trace.filter Cmd.isTeardown = F) ∨
      out.1.trace.filter Cmd.isTeardown = F ++ [Cmd.umount mp])
    (filter_pres_of_emitsOnly emitsOnly_getFS)
    (fun F out h1 h2 => Or.inl ⟨h1, h2⟩) ?_ s3
  intro fs2 s4
  refine td_bind_lift
    (fun F out => (out.2 = Except.error () ∧
        out.1.trace.filter Cmd.isTeardown = F) ∨
      out.1.trace.filter Cmd.isTeardown = F ++ [Cmd.umount mp])
    (filter_pres_of_emitsOnly (emitsOnly_ite (emitsOnly_pure _) (emitsOnly_execCmd rfl)))
    (fun F out h1 h2 => Or.inl ⟨h1, h2⟩) ?_ s4
  intro c s5
  exact Or.inr (hW2 s5)

theorem luksClose_scope_td (env : Env) (mn mp : String) (vols : List String)
    (fr : Bool) (s : St) :
    ((withFinalizer env (Cmd.luksClose mn) true
        (mount_scope env mn mp vols fr true) s).2 = Except.error () ∧
      (withFinalizer env (Cmd.luksClose mn) true
          (mount_scope env mn mp vols fr true) s).1.trace.filter Cmd.isTeardown =
        s.trace.filter Cmd.isTeardown ++ [Cmd.luksClose mn]) ∨
    (withFinalizer env (Cmd.luksClose mn) true
        (mount_scope env mn mp vols fr true) s).1.trace.filter Cmd.isTeardown =
      s.trace.filter Cmd.isTeardown ++ [Cmd.umount mp, Cmd.luksClose mn] := by
  cases hms : mount_scope env mn mp vols fr true s with
  | mk s2 r2 =>
    have hmt := mount_scope_td env mn mp vols fr s
    rw [hms] at hmt
    dsimp only at hmt
    rw [withFinalizer, pyTryFinally, hms]
    dsimp only
    rw [finalizerExit, if_pos rfl]
    rcases hmt with ⟨herr, hfil⟩ | hfil
    · subst herr
      left
      cases hok : env.ok (Cmd.luksClose mn) with
      | true =>
        constructor
        · simp [execCmd, hok]
        · simp [execCmd, hok, List.filter_append, hfil, Cmd.isTeardown]
      | false =>
        constructor
        · simp [execCmd, hok]
        · simp [execCmd, hok, List.filter_append, hfil, Cmd.isTeardown]
    · right
      cases hok : env.ok (Cmd.luksClose mn) with
      | true => simp [execCmd, hok, List.filter_append, hfil, Cmd.isTeardown]
      | false => simp [execCmd, hok, List.filter_append, hfil, Cmd.isTeardown]

theorem unlock_scope_td (env : Env) (image mn mp : String) (vols : List String)
    (fr : Bool) (s : St) :
    ((unlock_scope env image mn mp vols fr true s).2 = Except.error () ∧
      ((unlock_scope env image mn mp vols fr true s).1.trace.filter Cmd.isTeardown =
          s.trace.filter Cmd.isTeardown ∨
        (unlock_scope env image mn mp vols fr true s).1.trace.filter Cmd.isTeardown =
          s.trace.filter Cmd.isTeardown ++ [Cmd.luksClose mn])) ∨
    (unlock_scope env image mn mp vols fr true s).1.trace.filter Cmd.isTeardown =
      s.trace.filter Cmd.isTeardown ++ [Cmd.umount mp, Cmd.luksClose mn] := by
  unfold unlock_scope
  refine td_bind_lift
    (fun F out => (out.2 = Except.error () ∧
        (out.1.trace.filter Cmd.isTeardown = F ∨
          out.1.trace.filter Cmd.isTeardown = F ++ [Cmd.luksClose mn])) ∨
      out.1.trace.filter Cmd.isTeardown = F ++ [Cmd.umount mp, Cmd.luksClose mn])
    (filter_pres_of_emitsOnly (emitsOnly_ite
      (emitsOnly_bind (emitsOnly_execCmd rfl) fun _ => emitsOnly_execCmd rfl)
      (emitsOnly_pure _)))
    (fun F out h1 h2 => Or.inl ⟨h1, Or.inl h2⟩) ?_ s
  intro a s1
  refine td_bind_lift
    (fun F out => (out.2 = Except.error () ∧
        (out.1.trace.filter Cmd.isTeardown = F ∨
          out.1.trace.filter Cmd.isTeardown = F ++ [Cmd.luksClose mn])) ∨
      out.1.trace.filter Cmd.isTeardown = F ++ [Cmd.umount mp, Cmd.luksClose mn])
    (filter_pres_of_emitsOnly emitsOnly_getFS)
    (fun F out h1 h2 => Or.inl ⟨h1, Or.inl h2⟩) ?_ s1
  intro fs s2
  refine td_bind_lift
    (fun F out => (out.2 = Except.error () ∧
        (out.1.trace.filter Cmd.isTeardown = F ∨
          out.1.trace.filter Cmd.isTeardown = F ++ [Cmd.luksClose mn])) ∨
      out.1.trace.filter Cmd.isTeardown = F ++ [Cmd.umount mp, Cmd.luksClose mn])
    (filter_pres_of_emitsOnly (emitsOnly_ite (emitsOnly_execCmd rfl) (emitsOnly_pure _)))
    (fun F out h1 h2 => Or.inl ⟨h1, Or.inl h2⟩) ?_ s2
  intro b s3
  rcases luksClose_scope_td env mn mp vols fr s3 with ⟨herr, hfil⟩ | hfil
  · exact Or.inl ⟨herr, Or.inr hfil⟩
  · exact Or.inr hfil

/-- Claim C3, counterexample to the claim as stated: with `cleanup = true`, a
run in which `cryptsetup luksOpen` fails terminates before either finalizer
scope is entered — the run fails, yet neither `umount` nor `luksClose` is
executed even once, contradicting "each of these two teardown commands is
executed exactly once per run" for failing runs. -/
theorem C3_counterexample :
    (runInit env_open_fail "/boot/keys.img" "keys" "/mnt/keys" [] (some true)
        fs_closed).2 = Except.error () ∧
    (runInit env_open_fail "/boot/keys.img" "keys" "/mnt/keys" [] (some true)
        fs_closed).1.trace.filter Cmd.isTeardown = [] := by decide

/-- Claim C3 (amended): for every run with `cleanup = true`, each teardown
command executes at most once and the unmount always precedes the lock-close:
the teardown subsequence of the trace is one of `[]` (failed before the
lock-close scope was entered), `[luksClose]` (failed inside the lock-close
scope before the unmount scope was entered) or `[umount, luksClose]`; and on
every run that returns successfully both teardown commands execute exactly
once, unmount first. -/
theorem C3_teardown_order (env : Env) (image mn mp : String) (vols : List String)
    (fs : FS) :
    ((runInit env image mn mp vols (some true) fs).1.trace.filter Cmd.isTeardown = [] ∨
     (runInit env image mn mp vols (some true) fs).1.trace.filter Cmd.isTeardown =
       [Cmd.luksClose mn] ∨
     (runInit env image mn mp vols (some true) fs).1.trace.filter Cmd.isTeardown =
       [Cmd.umount mp, Cmd.luksClose mn]) ∧
    ∀ c, (runInit env image mn mp vols (some true) fs).2 = Except.ok c →
      (runInit env image mn mp vols (some true) fs).1.trace.filter Cmd.isTeardown =
        [Cmd.umount mp, Cmd.luksClose mn] := by
  have hrun : runInit env image mn mp vols (some true) fs =
      pyTryFinally
        (unlock_scope env image mn mp vols (!(fs.files.contains image)) true)
        (rollbackFin image)
        { fs := fs, trace := [], initDone := !(!(fs.files.contains image)) } := rfl
  have htd := unlock_scope_td env image mn mp vols (!(fs.files.contains image))
    { fs := fs, trace := [], initDone := !(!(fs.files.contains image)) }
  rw [hrun, pyTryFinally_rollback_res, pyTryFinally_rollback_trace]
  simp only [List.filter_nil, List.nil_append] at htd
  rcases htd with ⟨herr, hfil⟩ | hfil
  · constructor
    · rcases hfil with h | h
      · exact Or.inl h
      · exact Or.inr (Or.inl h)
    · intro c hc
      rw [herr] at hc
      exact absurd hc (by simp)
  · exact ⟨Or.inr (Or.inr hfil), fun c _ => hfil⟩

/-- Witness for C3: a fully successful steady-state run with `cleanup = true`
executes exactly `umount` then `luksClose`. -/
theorem C3_teardown_order_witness :
    (runInit env_allok_none "/boot/keys.img" "keys" "/mnt/keys" [] (some true)
        fs_closed).1.trace.filter Cmd.isTeardown =
      [Cmd.umount "/mnt/keys", Cmd.luksClose "keys"] := by
  obtain ⟨-, h⟩ := C3_teardown_order env_allok_none "/boot/keys.img" "keys"
    "/mnt/keys" [] fs_closed
  exact h (0, 0, 0) (by decide)
